/-
Verification of mmworkbench/models/model.py (model-training and evaluation
layer). Python functions are shallowly embedded as executable Lean
definitions: dicts become association lists or records, numeric labels
become Nat, probabilities become Rat, and Python exceptions become an
explicit error type returned through Except.
-/
import Mathlib

namespace MindMeld

/-- Python exceptions raised by the embedded code. -/
inductive PyError
| typeError (msg : String)
| valueError (msg : String)
| keyError (msg : String)
deriving DecidableEq, Repr

/-- Embedding of the param-selection settings dict.  The dict keys used by
the code under verification are the cross-validation type string, the fold
count k, the optional split count n, and the optional hyperparameter grid
(model.py accesses them with settings[...] and settings.get(...)). -/
structure CVSettings where
  cvType : String
  k : Nat
  n : Option Nat
  grid : Option (List (String × List Nat))
deriving DecidableEq, Repr

/-- Embedding of the sklearn splitter objects constructed by the
Model._*_iterator static methods: each constructor records the constructor
called and the arguments passed to it (n_splits, and test_size for the
shuffle variants, kept as an exact rational). -/
inductive CVIterator
| KFold (n_splits : Nat)
| ShuffleSplit (n_splits : Nat) (test_size : ℚ)
| GroupKFold (n_splits : Nat)
| GroupShuffleSplit (n_splits : Nat) (test_size : ℚ)
| StratifiedKFold (n_splits : Nat)
| StratifiedShuffleSplit (n_splits : Nat) (test_size : ℚ)
deriving DecidableEq, Repr

/-- Model._k_fold_iterator: KFold(n_splits=settings[k]). -/
def _k_fold_iterator (settings : CVSettings) : CVIterator :=
  .KFold settings.k

/-- Model._shuffle_iterator: ShuffleSplit(n_splits=settings.get(n, k),
test_size=1.0/k). -/
def _shuffle_iterator (settings : CVSettings) : CVIterator :=
  .ShuffleSplit (settings.n.getD settings.k) (1 / (settings.k : ℚ))

/-- Model._groups_k_fold_iterator: GroupKFold(n_splits=settings[k]). -/
def _groups_k_fold_iterator (settings : CVSettings) : CVIterator :=
  .GroupKFold settings.k

/-- Model._groups_shuffle_iterator: GroupShuffleSplit(n_splits=settings.get(n, k),
test_size=1.0/k). -/
def _groups_shuffle_iterator (settings : CVSettings) : CVIterator :=
  .GroupShuffleSplit (settings.n.getD settings.k) (1 / (settings.k : ℚ))

/-- Model._stratified_k_fold_iterator: StratifiedKFold(n_splits=settings[k]). -/
def _stratified_k_fold_iterator (settings : CVSettings) : CVIterator :=
  .StratifiedKFold settings.k

/-- Model._stratified_shuffle_iterator: StratifiedShuffleSplit(
n_splits=settings.get(n, k), test_size=1.0/k). -/
def _stratified_shuffle_iterator (settings : CVSettings) : CVIterator :=
  .StratifiedShuffleSplit (settings.n.getD settings.k) (1 / (settings.k : ℚ))

/-- The dict literal in Model._get_cv_iterator, queried with .get(cv_type):
an unknown key yields None (not a KeyError). -/
def cv_iterator_table (cv_type : String) : Option (CVSettings → CVIterator) :=
  if cv_type = "k-fold" then some _k_fold_iterator
  else if cv_type = "shuffle" then some _shuffle_iterator
  else if cv_type = "group-k-fold" then some _groups_k_fold_iterator
  else if cv_type = "group-shuffle" then some _groups_shuffle_iterator
  else if cv_type = "stratified-k-fold" then some _stratified_k_fold_iterator
  else if cv_type = "stratified-shuffle" then some _stratified_shuffle_iterator
  else none

/-- Model._get_cv_iterator.  A falsy settings value (None or an empty dict,
modelled as none) returns None.  Otherwise the dict literal is queried with
.get(cv_type); for an unknown type this returns None and the code then
calls None(settings), which raises TypeError.  The surrounding
try/except only catches KeyError (e.g. a known type whose settings lack
the k key), so the TypeError escapes; it is never converted into the
ValueError mentioned in the except branch.  Settings with the k key
present are modelled, so the KeyError path is unreachable here. -/
def _get_cv_iterator (settings : Option CVSettings) :
    Except PyError (Option CVIterator) :=
  match settings with
  | none => .ok none
  | some s =>
    match cv_iterator_table s.cvType with
    | some f => .ok (some (f s))
    | none => .error (.typeError "NoneType object is not callable")

/-- Embedding of the ModelConfig value object: the seven slots, with dicts
modelled as association lists and optional slots as Option. -/
structure ModelConfig where
  model_type : String
  example_type : String
  label_type : String
  features : List (String × Nat)
  model_settings : Option (List (String × String))
  params : Option (List (String × Nat))
  param_selection : Option CVSettings
deriving DecidableEq, Repr

/-- ModelConfig.__init__: raises TypeError for the first of model_type,
example_type, label_type, features that is None (in dict insertion order);
then raises ValueError when params is None and param_selection is None or
its .get(grid) is None; otherwise stores the seven arguments in the slots. -/
def ModelConfig_init (model_type example_type label_type : Option String)
    (features : Option (List (String × Nat)))
    (model_settings : Option (List (String × String)))
    (params : Option (List (String × Nat)))
    (param_selection : Option CVSettings) : Except PyError ModelConfig :=
  match model_type, example_type, label_type, features with
  | none, _, _, _ => .error (.typeError "missing required argument model_type")
  | _, none, _, _ => .error (.typeError "missing required argument example_type")
  | _, _, none, _ => .error (.typeError "missing required argument label_type")
  | _, _, _, none => .error (.typeError "missing required argument features")
  | some mt, some et, some lt, some ft =>
    if params.isNone &&
        (param_selection.isNone ||
          (param_selection.bind (fun ps => ps.grid)).isNone) then
      .error (.valueError "One of params and param_selection is required")
    else
      .ok ⟨mt, et, lt, ft, model_settings, params, param_selection⟩

namespace LabelEncoder

/-- LabelEncoder.encode: returns the labels list unchanged. -/
def encode (labels : List α) : List α :=
  labels

/-- LabelEncoder.decode: returns the classes list unchanged. -/
def decode (classes : List α) : List α :=
  classes

end LabelEncoder

/-- The registry populated by the register_label calls at module level:
the default class label type maps to the plain LabelEncoder (the encoder
whose encode and decode are the identity), entities to EntityLabelEncoder. -/
def label_encoder_registry : List (String × String) :=
  [("class", "LabelEncoder"), ("entities", "EntityLabelEncoder")]

/-- Classifier params dict, as passed to the underlying sklearn model. -/
abbrev Params : Type :=
  List (String × Nat)

/-- Python x or y on optional dicts: x when x is truthy (not None and
nonempty), else y.  Used by SkLearnModel.fit for
params = params or self.config.params. -/
def pyOr (a b : Option Params) : Option Params :=
  match a with
  | some l => if l.isEmpty then b else some l
  | none => b

/-- Outcome of the bookkeeping in SkLearnModel.fit: whether the
cross-validation branch ran, and the params recorded in _current_params. -/
structure FitOutcome where
  ranParamSelection : Bool
  current_params : Option Params
deriving DecidableEq, Repr

/-- Control flow and _current_params bookkeeping of SkLearnModel.fit.
skip_param_selection = params is not None or config.param_selection is
None; params = params or config.params; the skip branch fits with those
params and records them, the other branch runs cross validation and
records the best params found (the grid search outcome is abstracted as
the best_params argument). -/
def SkLearnModel_fit (params : Option Params) (config : ModelConfig)
    (best_params : Params) : FitOutcome :=
  let skip_param_selection := params.isSome || config.param_selection.isNone
  let chosen := pyOr params config.params
  if skip_param_selection then
    ⟨false, chosen⟩
  else
    ⟨true, some best_params⟩

/-- List re-indexing, as in [xs[i] for i in indices]; with every index in
range the option lookups all succeed. -/
def reindex (indices : List Nat) (xs : List α) : List α :=
  indices.filterMap (fun i => xs[i]?)

/-- The label-shuffling step at the start of SkLearnModel.fit:
indices = shuffled range(len(labels)); examples = [examples[i] for i in
indices]; labels = [labels[i] for i in indices].  The permutation chosen
by random.shuffle is passed in as indices. -/
def fit_shuffle (indices : List Nat) (examples : List α) (labels : List β) :
    List α × List β :=
  (reindex indices examples, reindex indices labels)

/-- Python dict assignment d[k] = v on an association list: updates the
value in place when the key is present, appends otherwise. -/
def dictInsert [DecidableEq α] (d : List (α × ℚ)) (k : α) (v : ℚ) :
    List (α × ℚ) :=
  match d with
  | [] => [(k, v)]
  | (k0, v0) :: rest =>
    if k0 = k then (k, v) :: rest else (k0, v0) :: dictInsert rest k v

/-- Python dict lookup d.get(k) on an association list. -/
def dictGet [DecidableEq α] (d : List (α × ℚ)) (k : α) : Option ℚ :=
  match d with
  | [] => none
  | (k0, v0) :: rest => if k0 = k then some v0 else dictGet rest k

/-- Loop body of SkLearnModel._predict_proba over one row: for each
class_index, proba in enumerate(row), the decoded class (the composite of
the class encoder inverse transform and the label encoder decode is the
dec argument) is mapped to proba in the probabilities dict, and top_class
is replaced whenever proba > probabilities.get(top_class, -1.0) (the dict
already holds the current entry when the comparison runs).  The
assignment class_index = row.argmax() before the loop is dead: the loop
variable overwrites it. -/
def predictRowAux [DecidableEq α] (dec : Nat → α) :
    List ℚ → Nat → Option α → List (α × ℚ) → Option α × List (α × ℚ)
  | [], _, top_class, probabilities => (top_class, probabilities)
  | proba :: rest, i, top_class, probabilities =>
    let decoded_class := dec i
    let probabilities2 := dictInsert probabilities decoded_class proba
    let cur : ℚ :=
      match top_class with
      | none => -1
      | some t => (dictGet probabilities2 t).getD (-1)
    let top2 := if cur < proba then some decoded_class else top_class
    predictRowAux dec rest (i + 1) top2 probabilities2

/-- SkLearnModel._predict_proba: one (top_class, probabilities) pair per
row of the matrix of per-class probabilities. -/
def _predict_proba [DecidableEq α] (dec : Nat → α) (X : List (List ℚ)) :
    List (Option α × List (α × ℚ)) :=
  X.map (fun row => predictRowAux dec row 0 none [])

/-- Embedding of the EvaluatedExample namedtuple fields used by the
evaluation code (the probas field is not read by raw_results; the source
field example is renamed exampleVal because example is a Lean keyword). -/
structure EvaluatedExample (ε α : Type) where
  exampleVal : ε
  expected : α
  predicted : α
deriving DecidableEq, Repr

/-- ModelEvaluation._update_raw_result: appends the label to text_labels
when absent, then appends text_labels.index(label) to the vector. -/
def _update_raw_result [DecidableEq α] (label : α) (text_labels : List α)
    (vec : List Nat) : List α × List Nat :=
  let tl := if label ∈ text_labels then text_labels else text_labels ++ [label]
  (tl, vec ++ [tl.indexOf label])

/-- Loop of StandardModelEvaluation.raw_results: for each result, update
with the predicted label (into the predicted vector) and then with the
expected label (into the expected vector), threading text_labels. -/
def raw_results_aux [DecidableEq α] (results : List (EvaluatedExample ε α))
    (text_labels : List α) (predicted expected : List Nat) :
    List α × List Nat × List Nat :=
  match results with
  | [] => (text_labels, predicted, expected)
  | r :: rest =>
    let s1 := _update_raw_result r.predicted text_labels predicted
    let s2 := _update_raw_result r.expected s1.1 expected
    raw_results_aux rest s2.1 s1.2 s2.2

/-- The RawResults fields produced by the standard evaluation. -/
structure RawResults (α : Type) where
  predicted : List Nat
  expected : List Nat
  text_labels : List α
deriving DecidableEq, Repr

/-- StandardModelEvaluation.raw_results starting from empty accumulators. -/
def StandardModelEvaluation_raw_results [DecidableEq α]
    (results : List (EvaluatedExample ε α)) : RawResults α :=
  let out := raw_results_aux results [] [] []
  ⟨out.2.1, out.2.2, out.1⟩

/-- Sorted distinct class values of y_true and y_pred, as np.unique
computes them inside sklearn confusion_matrix (here realised by filtering
an enclosing range, which yields the same sorted duplicate-free list). -/
def cmClasses (y_true y_pred : List Nat) : List Nat :=
  (List.range ((y_true ++ y_pred).foldr max 0 + 1)).filter
    (fun c => c ∈ y_true ++ y_pred)

/-- Number of observations with true class a and predicted class b. -/
def cmCount (y_true y_pred : List Nat) (a b : Nat) : Nat :=
  ((y_true.zip y_pred).filter (fun p => p.1 = a ∧ p.2 = b)).length

/-- sklearn confusion_matrix: entry i j counts observations known to be in
group classes[i] and predicted to be in group classes[j]. -/
def confusion_matrix (y_true y_pred : List Nat) : List (List Nat) :=
  let classes := cmClasses y_true y_pred
  classes.map (fun a => classes.map (fun b => cmCount y_true y_pred a b))

/-- Matrix entry access C[j][k] (out-of-range reads as 0; all uses here
are in range). -/
def mAt (C : List (List Nat)) (j k : Nat) : Nat :=
  ((C.getD j []).getD k 0)

/-- np.sum(mask*confusion_mat) for a 0/1 mask given as a function of the
row and column index. -/
def maskedSum (n : Nat) (mask : Nat → Nat → Nat) (C : List (List Nat)) : Nat :=
  ((List.range n).map
    (fun j => ((List.range n).map (fun k => mask j k * mAt C j k)).sum)).sum

/-- Per-class count arrays (the counts_by_class namedtuple). -/
structure Counts where
  TP : List Nat
  TN : List Nat
  FP : List Nat
  FN : List Nat
deriving DecidableEq, Repr

/-- Overall count scalars (the counts_overall namedtuple). -/
structure CountsOverall where
  TP : Nat
  TN : Nat
  FP : Nat
  FN : Nat
deriving DecidableEq, Repr

/-- Return value of ModelEvaluation._get_confusion_matrix_and_counts. -/
structure ConfusionStats where
  confusion_mat : List (List Nat)
  counts_by_class : Counts
  counts_overall : CountsOverall
deriving DecidableEq, Repr

/-- ModelEvaluation._get_confusion_matrix_and_counts.  In the binary
branch the four counts are read off the 2x2 matrix.  In the multiclass
branch TP is the diagonal entry; TN masks out row i and column i and sums
the rest; FP builds a zero mask, sets column i to one, zeroes the
diagonal entry, and sums; the FN block (model.py lines 341 to 346) builds
its mask exactly the same way as the FP block, with mask[:, class_index]
(column i) set to one, although its comment describes the row sum; the
embedding reproduces that column mask.  counts_overall sums each array. -/
def _get_confusion_matrix_and_counts (y_true y_pred : List Nat) :
    ConfusionStats :=
  let C := confusion_matrix y_true y_pred
  let n := C.length
  let arrs :=
    if n = 2 then
      (([mAt C 1 1], [mAt C 0 0]), ([mAt C 0 1], [mAt C 1 0]))
    else
      (((List.range n).map (fun i => mAt C i i),
        (List.range n).map (fun i =>
          maskedSum n (fun j k => if j = i ∨ k = i then 0 else 1) C)),
       ((List.range n).map (fun i =>
          maskedSum n (fun j k => if k = i ∧ ¬j = i then 1 else 0) C),
        (List.range n).map (fun i =>
          maskedSum n (fun j k => if k = i ∧ ¬j = i then 1 else 0) C)))
  ⟨C, ⟨arrs.1.1, arrs.1.2, arrs.2.1, arrs.2.2⟩,
    ⟨arrs.1.1.sum, arrs.1.2.sum, arrs.2.1.sum, arrs.2.2.sum⟩⟩

/-- The labels value computed at the top of
ModelEvaluation._get_common_stats and passed to the per-class scoring:
range(len(text_labels)-1). -/
def common_stats_labels (text_labels : List α) : List Nat :=
  List.range (text_labels.length - 1)

/-- The class names printed by ModelEvaluation._print_class_stats_table:
one row per label in range(len(text_labels)-1), showing
text_labels[label]. -/
def class_stats_table_printed_labels (text_labels : List α) : List α :=
  (List.range (text_labels.length - 1)).filterMap (fun l => text_labels[l]?)

/-- One list is an initial segment of another (text_labels only ever grows
by appending, so earlier snapshots lead later ones). -/
def ListLeads (l1 l2 : List α) : Prop :=
  ∃ t, l1 ++ t = l2

/-- C7: for the default class label encoder, encode and decode are each the
identity on label lists, so the decode-encode round trip returns the
labels unchanged. -/
theorem class_label_encoder_round_trip (labels : List α) :
    LabelEncoder.encode labels = labels ∧
    LabelEncoder.decode labels = labels ∧
    LabelEncoder.decode (LabelEncoder.encode labels) = labels :=
  ⟨rfl, rfl, rfl⟩

/-- C5: _get_cv_iterator returns None for falsy settings and maps each of
the six supported cross-validation types to its splitter: the k-fold
variants get exactly k splits, the shuffle variants get n splits (with n
defaulting to k when absent) and test fraction 1/k. -/
theorem get_cv_iterator_cases (k : Nat) (n : Option Nat)
    (g : Option (List (String × List Nat))) :
    _get_cv_iterator none = .ok none ∧
    _get_cv_iterator (some ⟨"k-fold", k, n, g⟩) = .ok (some (.KFold k)) ∧
    _get_cv_iterator (some ⟨"group-k-fold", k, n, g⟩) =
      .ok (some (.GroupKFold k)) ∧
    _get_cv_iterator (some ⟨"stratified-k-fold", k, n, g⟩) =
      .ok (some (.StratifiedKFold k)) ∧
    _get_cv_iterator (some ⟨"shuffle", k, n, g⟩) =
      .ok (some (.ShuffleSplit (n.getD k) (1 / (k : ℚ)))) ∧
    _get_cv_iterator (some ⟨"group-shuffle", k, n, g⟩) =
      .ok (some (.GroupShuffleSplit (n.getD k) (1 / (k : ℚ)))) ∧
    _get_cv_iterator (some ⟨"stratified-shuffle", k, n, g⟩) =
      .ok (some (.StratifiedShuffleSplit (n.getD k) (1 / (k : ℚ)))) :=
  ⟨rfl, rfl, rfl, rfl, rfl, rfl, rfl⟩

/-- C10: for a settings dict whose type is not one of the six supported
names, _get_cv_iterator raises TypeError (the dict .get returns None and
the code calls it), not the ValueError the claim describes; the except
branch only catches KeyError, which this path never raises. -/
theorem get_cv_iterator_unknown_type_raises_typeerror :
    _get_cv_iterator (some ⟨"bogus", 3, none, none⟩) =
      .error (.typeError "NoneType object is not callable") ∧
    ∀ msg, _get_cv_iterator (some ⟨"bogus", 3, none, none⟩) ≠
      .error (.valueError msg) := by
  refine ⟨rfl, fun msg h => ?_⟩
  rw [show _get_cv_iterator (some ⟨"bogus", 3, none, none⟩) =
    .error (.typeError "NoneType object is not callable") from rfl] at h
  simp at h

/-- C1: at y_true = [0,0,1,2], y_pred = [0,1,1,2] the multiclass branch of
_get_confusion_matrix_and_counts computes FN with the same column mask it
uses for FP, so the per-class FN array equals the FP array and differs
from the off-diagonal row sums that the claim (and the comment above the
FN block in the source) prescribes. -/
theorem confusion_counts_fn_uses_column_mask :
    (_get_confusion_matrix_and_counts [0, 0, 1, 2] [0, 1, 1, 2]).confusion_mat
      = [[1, 1, 0], [0, 1, 0], [0, 0, 1]] ∧
    (_get_confusion_matrix_and_counts [0, 0, 1, 2] [0, 1, 1, 2]).counts_by_class.FN
      = (_get_confusion_matrix_and_counts [0, 0, 1, 2] [0, 1, 1, 2]).counts_by_class.FP ∧
    (_get_confusion_matrix_and_counts [0, 0, 1, 2] [0, 1, 1, 2]).counts_by_class.FN
      ≠ (List.range 3).map (fun i =>
          maskedSum 3 (fun j k => if j = i ∧ ¬k = i then 1 else 0)
            (_get_confusion_matrix_and_counts [0, 0, 1, 2] [0, 1, 1, 2]).confusion_mat) := by
  decide

/-- C2: with a results set producing two distinct text labels, the labels
value passed to the per-class scoring is range(len(text_labels)-1) = [0]
rather than both numeric labels, and the class stats table prints a single
row, dropping the last label. -/
theorem class_stats_drop_last_label :
    (StandardModelEvaluation_raw_results
        [(⟨0, "a", "b"⟩ : EvaluatedExample Nat String)]).text_labels
      = ["b", "a"] ∧
    common_stats_labels (["b", "a"] : List String) = [0] ∧
    common_stats_labels (["b", "a"] : List String) ≠ [0, 1] ∧
    class_stats_table_printed_labels (["b", "a"] : List String) = ["b"] := by
  decide

/-- C4 counterexample: with the explicit params argument the empty dict
and no param selection configured, fit skips selection but records
config.params rather than the explicit empty params, because
params or config.params tests truthiness, not None. -/
theorem fit_empty_params_falls_back :
    (SkLearnModel_fit (some [])
        ⟨"text", "query", "class", [], none, some [("C", 1)], none⟩
        []).current_params = some [("C", 1)] ∧
    some ([] : Params) ≠ some [("C", 1)] := by
  decide

/-- C4 amended: fit runs cross-validated selection iff params is None and
config.param_selection is not None; otherwise it records the explicit
params when they are a nonempty dict and falls back to config.params when
params is None or the empty dict; in the selection branch the best params
found are recorded as _current_params. -/
theorem fit_branching (params : Option Params) (config : ModelConfig)
    (best_params : Params) :
    ((SkLearnModel_fit params config best_params).ranParamSelection = true ↔
      params = none ∧ config.param_selection ≠ none) ∧
    (∀ l, params = some l → l ≠ [] →
      (SkLearnModel_fit params config best_params).current_params = some l) ∧
    ((params = none ∨ params = some []) →
      (SkLearnModel_fit params config best_params).ranParamSelection = false →
      (SkLearnModel_fit params config best_params).current_params
        = config.params) ∧
    (params = none → config.param_selection ≠ none →
      (SkLearnModel_fit params config best_params).current_params
        = some best_params) := by
  cases params with
  | none =>
    cases hsel : config.param_selection with
    | none => simp [SkLearnModel_fit, pyOr, hsel]
    | some s => simp [SkLearnModel_fit, pyOr, hsel]
  | some l =>
    cases l with
    | nil => simp [SkLearnModel_fit, pyOr]
    | cons a as => simp [SkLearnModel_fit, pyOr]

/-- C4 witness: the amended theorem applied at explicit nonempty params
and a config with no param selection. -/
theorem fit_branching_witness :
    (some [("C", 2)] : Option Params) = some [("C", 2)] ∧
    (SkLearnModel_fit (some [("C", 2)])
        ⟨"text", "query", "class", [], none, none, none⟩ []).current_params
      = some [("C", 2)] :=
  ⟨rfl, (fit_branching (some [("C", 2)])
    ⟨"text", "query", "class", [], none, none, none⟩ []).2.1
    [("C", 2)] rfl (by decide)⟩

/-- C8: ModelConfig.__init__ raises TypeError iff one of model_type,
example_type, label_type, features is None; when all are present it
raises ValueError iff params is None and param_selection is None or lacks
a grid entry; otherwise it stores exactly the passed arguments in the
seven slots. -/
theorem modelconfig_init_spec (mt et lt : Option String)
    (ft : Option (List (String × Nat)))
    (ms : Option (List (String × String)))
    (ps : Option (List (String × Nat)))
    (sel : Option CVSettings) :
    ((∃ m, ModelConfig_init mt et lt ft ms ps sel = .error (.typeError m)) ↔
      (mt = none ∨ et = none ∨ lt = none ∨ ft = none)) ∧
    ((∃ m, ModelConfig_init mt et lt ft ms ps sel = .error (.valueError m)) ↔
      (mt ≠ none ∧ et ≠ none ∧ lt ≠ none ∧ ft ≠ none ∧ ps = none ∧
        (sel = none ∨ ∃ s, sel = some s ∧ s.grid = none))) ∧
    (∀ mt0 et0 lt0 ft0, mt = some mt0 → et = some et0 → lt = some lt0 →
      ft = some ft0 →
      ¬(ps = none ∧ (sel = none ∨ ∃ s, sel = some s ∧ s.grid = none)) →
      ModelConfig_init mt et lt ft ms ps sel =
        .ok ⟨mt0, et0, lt0, ft0, ms, ps, sel⟩) := by
  cases mt with
  | none => simp [ModelConfig_init]
  | some mt0 =>
    cases et with
    | none => simp [ModelConfig_init]
    | some et0 =>
      cases lt with
      | none => simp [ModelConfig_init]
      | some lt0 =>
        cases ft with
        | none => simp [ModelConfig_init]
        | some ft0 =>
          cases ps with
          | some p =>
            simp [ModelConfig_init]
            intro a b c d ha hb hc hd
            exact ⟨ha, hb, hc, hd⟩
          | none =>
            cases sel with
            | none => simp [ModelConfig_init]
            | some s =>
              cases hg : s.grid with
              | none => simp [ModelConfig_init, hg]
              | some g =>
                simp [ModelConfig_init, hg]
                intro a b c d ha hb hc hd
                exact ⟨ha, hb, hc, hd⟩

/-- C8 witness: the construction branch of the theorem applied at a full
set of concrete arguments. -/
theorem modelconfig_init_spec_witness :
    ModelConfig_init (some "text") (some "query") (some "class") (some [])
        none (some [("C", 1)]) none =
      .ok ⟨"text", "query", "class", [], none, some [("C", 1)], none⟩ :=
  (modelconfig_init_spec (some "text") (some "query") (some "class")
    (some []) none (some [("C", 1)]) none).2.2
    "text" "query" "class" [] rfl rfl rfl rfl (by simp)

/-- Re-indexing two parallel lists of equal length by the same index list
and zipping agrees with re-indexing the zipped list. -/
theorem zip_reindex (indices : List Nat) (xs : List α) (ys : List β)
    (hlen : xs.length = ys.length) :
    (reindex indices xs).zip (reindex indices ys)
      = reindex indices (xs.zip ys) := by
  induction indices with
  | nil => rfl
  | cons i rest ih =>
    unfold reindex at ih ⊢
    rw [List.filterMap_cons, List.filterMap_cons, List.filterMap_cons]
    cases hx : xs[i]? with
    | none =>
      have hxl : xs.length ≤ i := by
        rw [← List.getElem?_eq_none_iff]
        exact hx
      have hy : ys[i]? = none := by
        rw [List.getElem?_eq_none_iff]
        omega
      have hz : (xs.zip ys)[i]? = none := by
        rw [List.getElem?_eq_none_iff, List.length_zip]
        omega
      rw [hy, hz]
      exact ih
    | some a =>
      have hia : i < xs.length := (List.getElem?_eq_some.mp hx).1
      have hib : i < ys.length := by omega
      have hy : ys[i]? = some (ys.get ⟨i, hib⟩) := List.getElem?_eq_getElem hib
      have hz : (xs.zip ys)[i]? = some (a, ys.get ⟨i, hib⟩) :=
        List.getElem?_zip_eq_some.mpr ⟨hx, hy⟩
      rw [hy, hz, List.zip_cons_cons]
      exact congrArg (List.cons _) ih

/-- Re-indexing a list by the identity permutation returns the list. -/
theorem reindex_range (xs : List α) :
    reindex (List.range xs.length) xs = xs := by
  induction xs with
  | nil => rfl
  | cons x xs ih =>
    unfold reindex at ih ⊢
    rw [List.length_cons, List.range_succ_eq_map, List.filterMap_cons,
      List.getElem?_cons_zero, List.filterMap_map]
    have hc : ((fun i => (x :: xs)[i]?) ∘ Nat.succ) = fun i => xs[i]? := by
      funext i
      simp
    rw [hc]
    exact congrArg (List.cons x) ih

/-- C6: the label-shuffling step of SkLearnModel.fit applies the same
permutation to examples and labels, so for parallel lists of equal length
and any permutation of range(len(labels)) the shuffled (example, label)
pairs are a permutation of the original pairs. -/
theorem fit_shuffle_preserves_pairs (indices : List Nat) (examples : List α)
    (labels : List β) (hlen : examples.length = labels.length)
    (hperm : indices.Perm (List.range labels.length)) :
    ((fit_shuffle indices examples labels).1.zip
        (fit_shuffle indices examples labels).2).Perm
      (examples.zip labels) := by
  have h1 : (fit_shuffle indices examples labels).1
      = reindex indices examples := rfl
  have h2 : (fit_shuffle indices examples labels).2
      = reindex indices labels := rfl
  rw [h1, h2, zip_reindex indices examples labels hlen]
  have hlz : (examples.zip labels).length = labels.length := by
    rw [List.length_zip, hlen, Nat.min_self]
  have hp2 : indices.Perm (List.range (examples.zip labels).length) := by
    rw [hlz]
    exact hperm
  have hstep := hp2.filterMap (fun i => (examples.zip labels)[i]?)
  have h3 := reindex_range (examples.zip labels)
  unfold reindex at h3
  rw [h3] at hstep
  exact hstep

/-- C6 witness: the shuffle theorem applied to the permutation [1, 0] of
two concrete parallel lists. -/
theorem fit_shuffle_preserves_pairs_witness :
    ((["a", "b"].length = [(10 : Nat), 20].length) ∧
      ([1, 0] : List Nat).Perm (List.range [(10 : Nat), 20].length)) ∧
    ((fit_shuffle [1, 0] ["a", "b"] [(10 : Nat), 20]).1.zip
        (fit_shuffle [1, 0] ["a", "b"] [(10 : Nat), 20]).2).Perm
      (["a", "b"].zip [(10 : Nat), 20]) :=
  ⟨⟨rfl, by decide⟩,
    fit_shuffle_preserves_pairs [1, 0] ["a", "b"] [(10 : Nat), 20] rfl
      (by decide)⟩

/-- ListLeads is reflexive. -/
theorem listLeads_refl (l : List α) : ListLeads l l :=
  ⟨[], List.append_nil l⟩

/-- ListLeads is transitive. -/
theorem listLeads_trans {l1 l2 l3 : List α} (h1 : ListLeads l1 l2)
    (h2 : ListLeads l2 l3) : ListLeads l1 l3 := by
  obtain ⟨t1, rfl⟩ := h1
  obtain ⟨t2, rfl⟩ := h2
  exact ⟨t1 ++ t2, (List.append_assoc l1 t1 t2).symm⟩

/-- Entries at valid positions survive extension of the list. -/
theorem listLeads_getElem? {l1 l2 : List α} {i : Nat} {a : α}
    (h : ListLeads l1 l2) (hi : l1[i]? = some a) : l2[i]? = some a := by
  obtain ⟨t, rfl⟩ := h
  rw [List.getElem?_append_left (List.getElem?_eq_some.mp hi).1]
  exact hi

/-- First component of _update_raw_result, written out. -/
theorem update_raw_fst [DecidableEq α] (label : α) (tl : List α)
    (vec : List Nat) :
    (_update_raw_result label tl vec).1
      = if label ∈ tl then tl else tl ++ [label] :=
  rfl

/-- Second component of _update_raw_result: the vector grows by the index
of the label in the updated text_labels. -/
theorem update_raw_snd [DecidableEq α] (label : α) (tl : List α)
    (vec : List Nat) :
    (_update_raw_result label tl vec).2
      = vec ++ [(_update_raw_result label tl vec).1.indexOf label] :=
  rfl

/-- _update_raw_result only appends to text_labels. -/
theorem update_raw_leads [DecidableEq α] (label : α) (tl : List α)
    (vec : List Nat) : ListLeads tl (_update_raw_result label tl vec).1 := by
  rw [update_raw_fst]
  by_cases h : label ∈ tl
  · rw [if_pos h]
    exact listLeads_refl tl
  · rw [if_neg h]
    exact ⟨[label], rfl⟩

/-- _update_raw_result keeps text_labels duplicate-free. -/
theorem update_raw_nodup [DecidableEq α] (label : α) (tl : List α)
    (vec : List Nat) (h : tl.Nodup) :
    (_update_raw_result label tl vec).1.Nodup := by
  rw [update_raw_fst]
  by_cases hm : label ∈ tl
  · rw [if_pos hm]
    exact h
  · rw [if_neg hm]
    rw [List.nodup_append]
    exact ⟨h, List.nodup_singleton label,
      fun a ha hb => hm ((List.mem_singleton.mp hb) ▸ ha)⟩

/-- The processed label is in the updated text_labels. -/
theorem update_raw_mem [DecidableEq α] (label : α) (tl : List α)
    (vec : List Nat) : label ∈ (_update_raw_result label tl vec).1 := by
  rw [update_raw_fst]
  by_cases hm : label ∈ tl
  · rw [if_pos hm]
    exact hm
  · rw [if_neg hm]
    exact List.mem_append_right tl (List.mem_singleton_self label)

/-- The index appended by _update_raw_result decodes back to the label in
the updated text_labels. -/
theorem update_raw_decodes [DecidableEq α] (label : α) (tl : List α)
    (vec : List Nat) :
    (_update_raw_result label tl vec).1[
      (_update_raw_result label tl vec).1.indexOf label]? = some label := by
  have hlt := List.indexOf_lt_length.mpr (update_raw_mem label tl vec)
  rw [List.getElem?_eq_getElem hlt]
  exact congrArg some (List.getElem_indexOf hlt)

/-- Length of the updated vector. -/
theorem update_raw_snd_length [DecidableEq α] (label : α) (tl : List α)
    (vec : List Nat) :
    (_update_raw_result label tl vec).2.length = vec.length + 1 := by
  rw [update_raw_snd]
  simp

/-- Invariant of the raw_results loop: text_labels stays duplicate-free
and only grows, each vector grows by one entry per result, existing
entries are untouched, and each new entry indexes the final text_labels at
the corresponding result label. -/
theorem raw_results_aux_spec [DecidableEq α]
    (results : List (EvaluatedExample ε α)) :
    ∀ (tl : List α) (pred exp : List Nat), tl.Nodup →
      (raw_results_aux results tl pred exp).1.Nodup ∧
      ListLeads tl (raw_results_aux results tl pred exp).1 ∧
      (raw_results_aux results tl pred exp).2.1.length
        = pred.length + results.length ∧
      (raw_results_aux results tl pred exp).2.2.length
        = exp.length + results.length ∧
      (∀ i, i < pred.length →
        (raw_results_aux results tl pred exp).2.1.getD i 0 = pred.getD i 0) ∧
      (∀ i, i < exp.length →
        (raw_results_aux results tl pred exp).2.2.getD i 0 = exp.getD i 0) ∧
      (∀ i r, results[i]? = some r →
        (raw_results_aux results tl pred exp).1[
          (raw_results_aux results tl pred exp).2.1.getD (pred.length + i) 0]?
            = some r.predicted ∧
        (raw_results_aux results tl pred exp).1[
          (raw_results_aux results tl pred exp).2.2.getD (exp.length + i) 0]?
            = some r.expected) := by
  induction results with
  | nil =>
    intro tl pred exp hnd
    refine ⟨hnd, listLeads_refl tl, by simp [raw_results_aux],
      by simp [raw_results_aux], fun i _ => rfl, fun i _ => rfl, ?_⟩
    intro i r hi
    simp at hi
  | cons r rest ih =>
    intro tl pred exp hnd
    have hstep : raw_results_aux (r :: rest) tl pred exp
        = raw_results_aux rest
            (_update_raw_result r.expected
              (_update_raw_result r.predicted tl pred).1 exp).1
            (_update_raw_result r.predicted tl pred).2
            (_update_raw_result r.expected
              (_update_raw_result r.predicted tl pred).1 exp).2 := rfl
    have hn1 : (_update_raw_result r.predicted tl pred).1.Nodup :=
      update_raw_nodup r.predicted tl pred hnd
    have hn2 : (_update_raw_result r.expected
        (_update_raw_result r.predicted tl pred).1 exp).1.Nodup :=
      update_raw_nodup r.expected _ exp hn1
    obtain ⟨IH1, IH2, IH3, IH4, IH5, IH6, IH7⟩ :=
      ih (_update_raw_result r.expected
            (_update_raw_result r.predicted tl pred).1 exp).1
        (_update_raw_result r.predicted tl pred).2
        (_update_raw_result r.expected
          (_update_raw_result r.predicted tl pred).1 exp).2 hn2
    have hp1len : (_update_raw_result r.predicted tl pred).2.length
        = pred.length + 1 := update_raw_snd_length r.predicted tl pred
    have he1len : (_update_raw_result r.expected
        (_update_raw_result r.predicted tl pred).1 exp).2.length
        = exp.length + 1 := update_raw_snd_length r.expected _ exp
    have hleads2 : ListLeads (_update_raw_result r.predicted tl pred).1
        (raw_results_aux (r :: rest) tl pred exp).1 := by
      rw [hstep]
      exact listLeads_trans (update_raw_leads r.expected _ exp) IH2
    have hleads3 : ListLeads (_update_raw_result r.expected
        (_update_raw_result r.predicted tl pred).1 exp).1
        (raw_results_aux (r :: rest) tl pred exp).1 := by
      rw [hstep]
      exact IH2
    rw [hstep]
    refine ⟨IH1, ?_, ?_, ?_, ?_, ?_, ?_⟩
    · exact listLeads_trans (update_raw_leads r.predicted tl pred)
        (listLeads_trans (update_raw_leads r.expected _ exp) IH2)
    · rw [IH3, hp1len, List.length_cons]
      omega
    · rw [IH4, he1len, List.length_cons]
      omega
    · intro i hilt
      rw [IH5 i (by omega), update_raw_snd,
        List.getD_append _ _ _ _ hilt]
    · intro i hilt
      rw [IH6 i (by omega), update_raw_snd,
        List.getD_append _ _ _ _ hilt]
    · intro i r' hi
      cases i with
      | zero =>
        have hr : r' = r := by
          rw [List.getElem?_cons_zero] at hi
          exact (Option.some.inj hi).symm
        subst hr
        constructor
        · have hidx : (raw_results_aux rest
              (_update_raw_result r'.expected
                (_update_raw_result r'.predicted tl pred).1 exp).1
              (_update_raw_result r'.predicted tl pred).2
              (_update_raw_result r'.expected
                (_update_raw_result r'.predicted tl pred).1 exp).2).2.1.getD
              (pred.length + 0) 0
              = (_update_raw_result r'.predicted tl pred).1.indexOf
                  r'.predicted := by
            rw [Nat.add_zero, IH5 pred.length (by omega), update_raw_snd,
              List.getD_append_right _ _ _ _ (Nat.le_refl pred.length),
              Nat.sub_self]
            rfl
          rw [hidx]
          refine listLeads_getElem? ?_
            (update_raw_decodes r'.predicted tl pred)
          exact listLeads_trans (update_raw_leads r'.expected _ exp) IH2
        · have hidx : (raw_results_aux rest
              (_update_raw_result r'.expected
                (_update_raw_result r'.predicted tl pred).1 exp).1
              (_update_raw_result r'.predicted tl pred).2
              (_update_raw_result r'.expected
                (_update_raw_result r'.predicted tl pred).1 exp).2).2.2.getD
              (exp.length + 0) 0
              = (_update_raw_result r'.expected
                  (_update_raw_result r'.predicted tl pred).1 exp).1.indexOf
                  r'.expected := by
            rw [Nat.add_zero, IH6 exp.length (by omega), update_raw_snd,
              List.getD_append_right _ _ _ _ (Nat.le_refl exp.length),
              Nat.sub_self]
            rfl
          rw [hidx]
          exact listLeads_getElem? IH2 (update_raw_decodes r'.expected _ exp)
      | succ j =>
        rw [List.getElem?_cons_succ] at hi
        obtain ⟨ha, hb⟩ := IH7 j r' hi
        constructor
        · have e : pred.length + (j + 1)
              = (_update_raw_result r.predicted tl pred).2.length + j := by
            rw [hp1len]
            omega
          rw [e]
          exact ha
        · have e : exp.length + (j + 1)
              = (_update_raw_result r.expected
                  (_update_raw_result r.predicted tl pred).1 exp).2.length
                  + j := by
            rw [he1len]
            omega
          rw [e]
          exact hb

/-- C9: StandardModelEvaluation.raw_results returns a duplicate-free
text_labels list and one numeric entry per result in each of predicted and
expected, and every entry is a valid index of text_labels that decodes to
the corresponding result label. -/
theorem raw_results_invariants [DecidableEq α]
    (results : List (EvaluatedExample ε α)) :
    (StandardModelEvaluation_raw_results results).text_labels.Nodup ∧
    (StandardModelEvaluation_raw_results results).predicted.length
      = results.length ∧
    (StandardModelEvaluation_raw_results results).expected.length
      = results.length ∧
    ∀ i r, results[i]? = some r →
      (StandardModelEvaluation_raw_results results).text_labels[
        (StandardModelEvaluation_raw_results results).predicted.getD i 0]?
          = some r.predicted ∧
      (StandardModelEvaluation_raw_results results).text_labels[
        (StandardModelEvaluation_raw_results results).expected.getD i 0]?
          = some r.expected := by
  obtain ⟨h1, _, h3, h4, _, _, h7⟩ :=
    raw_results_aux_spec results [] [] [] List.nodup_nil
  have e1 : (StandardModelEvaluation_raw_results results).text_labels
      = (raw_results_aux results [] [] ([] : List Nat)).1 := rfl
  have e2 : (StandardModelEvaluation_raw_results results).predicted
      = (raw_results_aux results [] [] ([] : List Nat)).2.1 := rfl
  have e3 : (StandardModelEvaluation_raw_results results).expected
      = (raw_results_aux results [] [] ([] : List Nat)).2.2 := rfl
  rw [e1, e2, e3]
  refine ⟨h1, by rw [h3]; simp, by rw [h4]; simp, ?_⟩
  intro i r hi
  have hres := h7 i r hi
  simpa using hres

/-- C9 witness: the invariants applied to a one-element results list. -/
theorem raw_results_invariants_witness :
    (([(⟨0, "a", "b"⟩ : EvaluatedExample Nat String)])[0]?
      = some ⟨0, "a", "b"⟩) ∧
    (StandardModelEvaluation_raw_results
      [(⟨0, "a", "b"⟩ : EvaluatedExample Nat String)]).text_labels[
        (StandardModelEvaluation_raw_results
          [(⟨0, "a", "b"⟩ : EvaluatedExample Nat String)]).predicted.getD 0 0]?
      = some "b" :=
  ⟨rfl, ((raw_results_invariants
    [(⟨0, "a", "b"⟩ : EvaluatedExample Nat String)]).2.2.2 0
    ⟨0, "a", "b"⟩ rfl).1⟩

/-- Lookup after insertion: the inserted key reads back the new value and
every other key is untouched. -/
theorem dictGet_dictInsert [DecidableEq α] (d : List (α × ℚ)) (k k' : α)
    (v : ℚ) :
    dictGet (dictInsert d k v) k' = if k = k' then some v else dictGet d k' := by
  induction d with
  | nil =>
    by_cases h : k = k' <;> simp [dictInsert, dictGet, h]
  | cons kv rest ih =>
    obtain ⟨k0, v0⟩ := kv
    by_cases h0 : k0 = k
    · subst h0
      by_cases h1 : k0 = k'
      · subst h1
        simp [dictInsert, dictGet]
      · simp [dictInsert, dictGet, h1]
    · by_cases h1 : k0 = k'
      · subst h1
        have hne : ¬k = k0 := fun h => h0 h.symm
        simp [dictInsert, dictGet, h0, hne]
      · simp [dictInsert, dictGet, h0, h1, ih]

/-- Inserting a key absent from the dict appends the pair. -/
theorem dictInsert_fresh [DecidableEq α] (d : List (α × ℚ)) (k : α) (v : ℚ)
    (h : ∀ kv ∈ d, ¬kv.1 = k) : dictInsert d k v = d ++ [(k, v)] := by
  induction d with
  | nil => rfl
  | cons kv rest ih =>
    obtain ⟨k0, v0⟩ := kv
    have hk : ¬k0 = k := h (k0, v0) (List.mem_cons_self _ _)
    simp only [dictInsert, if_neg hk, List.cons_append]
    rw [ih (fun kv hm => h kv (List.mem_cons_of_mem _ hm))]

/-- Invariant of the _predict_proba row loop: with an injective decoding
and nonnegative probabilities, the final dict has one entry per processed
probability, keyed by decoded class index and reading back the row value,
and top_class is a decoded class attaining the maximum processed value. -/
theorem predictRowAux_spec [DecidableEq α] (dec : Nat → α)
    (hinj : Function.Injective dec) :
    ∀ (rest pre : List ℚ) (top : Option α) (probs : List (α × ℚ)),
      (∀ p ∈ pre ++ rest, (0 : ℚ) ≤ p) →
      (∀ kv ∈ probs, ∃ i, i < pre.length ∧ kv.1 = dec i) →
      probs.length = pre.length →
      (∀ i q, pre[i]? = some q → dictGet probs (dec i) = some q) →
      ((top = none ∧ pre = []) ∨
        (∃ i q, pre[i]? = some q ∧ top = some (dec i) ∧ ∀ p ∈ pre, p ≤ q)) →
      (∀ kv ∈ (predictRowAux dec rest pre.length top probs).2,
        ∃ i, i < pre.length + rest.length ∧ kv.1 = dec i) ∧
      (predictRowAux dec rest pre.length top probs).2.length
        = pre.length + rest.length ∧
      (∀ i q, (pre ++ rest)[i]? = some q →
        dictGet (predictRowAux dec rest pre.length top probs).2 (dec i)
          = some q) ∧
      (((predictRowAux dec rest pre.length top probs).1 = none ∧
          pre ++ rest = []) ∨
        (∃ i q, (pre ++ rest)[i]? = some q ∧
          (predictRowAux dec rest pre.length top probs).1 = some (dec i) ∧
          ∀ p ∈ pre ++ rest, p ≤ q)) := by
  intro rest
  induction rest with
  | nil =>
    intro pre top probs hvals hdom hlen hget htop
    simp only [predictRowAux, List.append_nil, Nat.add_zero, List.length_nil]
    exact ⟨hdom, hlen, hget, htop⟩
  | cons p rest' ih =>
    intro pre top probs hvals hdom hlen hget htop
    have hfresh : ∀ kv ∈ probs, ¬kv.1 = dec pre.length := by
      intro kv hm hk
      obtain ⟨i, hilt, hie⟩ := hdom kv hm
      have : dec i = dec pre.length := by rw [← hie, hk]
      have := hinj this
      omega
    have hpr2 : dictInsert probs (dec pre.length) p
        = probs ++ [(dec pre.length, p)] :=
      dictInsert_fresh probs (dec pre.length) p hfresh
    have hp0 : (0 : ℚ) ≤ p :=
      hvals p (List.mem_append_right pre (List.mem_cons_self p rest'))
    have hvals' : ∀ x ∈ (pre ++ [p]) ++ rest', (0 : ℚ) ≤ x := by
      intro x hx
      rw [List.append_assoc, List.singleton_append] at hx
      exact hvals x hx
    have hdom' : ∀ kv ∈ dictInsert probs (dec pre.length) p,
        ∃ i, i < (pre ++ [p]).length ∧ kv.1 = dec i := by
      intro kv hm
      rw [hpr2] at hm
      rcases List.mem_append.mp hm with h | h
      · obtain ⟨i, hilt, hie⟩ := hdom kv h
        refine ⟨i, ?_, hie⟩
        rw [List.length_append, List.length_singleton]
        omega
      · rw [List.mem_singleton] at h
        subst h
        refine ⟨pre.length, ?_, rfl⟩
        rw [List.length_append, List.length_singleton]
        omega
    have hlen' : (dictInsert probs (dec pre.length) p).length
        = (pre ++ [p]).length := by
      rw [hpr2, List.length_append, List.length_append, List.length_singleton,
        List.length_singleton, hlen]
    have hget' : ∀ i q, (pre ++ [p])[i]? = some q →
        dictGet (dictInsert probs (dec pre.length) p) (dec i) = some q := by
      intro i q hi
      have hilt : i < (pre ++ [p]).length := (List.getElem?_eq_some.mp hi).1
      rw [List.length_append, List.length_singleton] at hilt
      by_cases hlt : i < pre.length
      · rw [List.getElem?_append_left hlt] at hi
        rw [dictGet_dictInsert, if_neg]
        · exact hget i q hi
        · intro heq
          have := hinj heq
          omega
      · have hieq : i = pre.length := by omega
        subst hieq
        rw [List.getElem?_append, if_neg (by omega), Nat.sub_self,
          List.getElem?_cons_zero] at hi
        have hq : q = p := (Option.some.inj hi).symm
        subst hq
        rw [dictGet_dictInsert, if_pos rfl]
    have happ : (pre ++ [p])[pre.length]? = some p := by
      rw [List.getElem?_append, if_neg (by omega), Nat.sub_self,
        List.getElem?_cons_zero]
    have hmain : ∀ top2 : Option α,
        ((top2 = none ∧ pre ++ [p] = []) ∨
          (∃ i q, (pre ++ [p])[i]? = some q ∧ top2 = some (dec i) ∧
            ∀ x ∈ pre ++ [p], x ≤ q)) →
        ((∀ kv ∈ (predictRowAux dec rest' (pre.length + 1) top2
              (dictInsert probs (dec pre.length) p)).2,
            ∃ i, i < pre.length + (p :: rest').length ∧ kv.1 = dec i) ∧
          (predictRowAux dec rest' (pre.length + 1) top2
              (dictInsert probs (dec pre.length) p)).2.length
            = pre.length + (p :: rest').length ∧
          (∀ i q, (pre ++ p :: rest')[i]? = some q →
            dictGet (predictRowAux dec rest' (pre.length + 1) top2
                (dictInsert probs (dec pre.length) p)).2 (dec i) = some q) ∧
          (((predictRowAux dec rest' (pre.length + 1) top2
                (dictInsert probs (dec pre.length) p)).1 = none ∧
              pre ++ p :: rest' = []) ∨
            (∃ i q, (pre ++ p :: rest')[i]? = some q ∧
              (predictRowAux dec rest' (pre.length + 1) top2
                  (dictInsert probs (dec pre.length) p)).1 = some (dec i) ∧
              ∀ x ∈ pre ++ p :: rest', x ≤ q))) := by
      intro top2 htop'
      have IH := ih (pre ++ [p]) top2 (dictInsert probs (dec pre.length) p)
        hvals' hdom' hlen' hget' htop'
      simp only [List.append_assoc, List.singleton_append, List.length_append,
        List.length_singleton] at IH
      obtain ⟨IH1, IH2, IH3, IH4⟩ := IH
      refine ⟨?_, ?_, IH3, IH4⟩
      · intro kv hm
        obtain ⟨i, hilt, hie⟩ := IH1 kv hm
        refine ⟨i, ?_, hie⟩
        rw [List.length_cons]
        omega
      · rw [IH2, List.length_cons]
        omega
    rcases htop with ⟨htnone, hpre⟩ | ⟨i0, q0, hi0, htsome, hmax⟩
    · subst htnone
      have hstep : predictRowAux dec (p :: rest') pre.length none probs
          = predictRowAux dec rest' (pre.length + 1)
              (if (-1 : ℚ) < p then some (dec pre.length) else none)
              (dictInsert probs (dec pre.length) p) := rfl
      rw [hstep, if_pos (lt_of_lt_of_le (by norm_num) hp0)]
      refine hmain (some (dec pre.length)) (Or.inr ⟨pre.length, p, happ, rfl, ?_⟩)
      intro x hx
      rcases List.mem_append.mp hx with h | h
      · rw [hpre] at h
        simp at h
      · rw [List.mem_singleton] at h
        subst h
        exact le_refl x
    · subst htsome
      have hi0lt : i0 < pre.length := by
        have := (List.getElem?_eq_some.mp hi0).1
        omega
      have hg0 : dictGet (dictInsert probs (dec pre.length) p) (dec i0)
          = some q0 := by
        rw [dictGet_dictInsert, if_neg]
        · exact hget i0 q0 hi0
        · intro heq
          have := hinj heq
          omega
      have hstep : predictRowAux dec (p :: rest') pre.length (some (dec i0)) probs
          = predictRowAux dec rest' (pre.length + 1)
              (if (dictGet (dictInsert probs (dec pre.length) p)
                    (dec i0)).getD (-1) < p
                then some (dec pre.length) else some (dec i0))
              (dictInsert probs (dec pre.length) p) := rfl
      rw [hstep, hg0]
      simp only [Option.getD_some]
      by_cases hcmp : q0 < p
      · rw [if_pos hcmp]
        refine hmain (some (dec pre.length))
          (Or.inr ⟨pre.length, p, happ, rfl, ?_⟩)
        intro x hx
        rcases List.mem_append.mp hx with h | h
        · exact le_trans (hmax x h) (le_of_lt hcmp)
        · rw [List.mem_singleton] at h
          subst h
          exact le_refl x
      · rw [if_neg hcmp]
        refine hmain (some (dec i0)) (Or.inr ⟨i0, q0, ?_, rfl, ?_⟩)
        · rw [List.getElem?_append_left hi0lt]
          exact hi0
        · intro x hx
          rcases List.mem_append.mp hx with h | h
          · exact hmax x h
          · rw [List.mem_singleton] at h
            subst h
            exact le_of_not_lt hcmp

/-- C3: for a matrix of nonnegative per-class probabilities with nonempty
rows and an injective decoding of class indices, _predict_proba returns
one (top_class, probabilities) pair per row, the probabilities dict maps
each decoded class to that row's probability for it (with exactly one
entry per class), and top_class is a decoded class attaining the row
maximum. -/
theorem predict_proba_rows [DecidableEq α] (dec : Nat → α)
    (hinj : Function.Injective dec) (X : List (List ℚ))
    (hval : ∀ row ∈ X, ∀ p ∈ row, (0 : ℚ) ≤ p)
    (hne : ∀ row ∈ X, row ≠ []) :
    (_predict_proba dec X).length = X.length ∧
    ∀ (j : Nat) (row : List ℚ), X[j]? = some row →
      ∃ t probs, (_predict_proba dec X)[j]? = some (some t, probs) ∧
        probs.length = row.length ∧
        (∀ i q, row[i]? = some q → dictGet probs (dec i) = some q) ∧
        (∃ i q, row[i]? = some q ∧ t = dec i ∧ ∀ p ∈ row, p ≤ q) := by
  constructor
  · exact List.length_map X _
  · intro j row hj
    have hmem : row ∈ X := List.getElem?_mem hj
    have hspec := predictRowAux_spec dec hinj row [] none []
      (by
        intro p hp
        rw [List.nil_append] at hp
        exact hval row hmem p hp)
      (by
        intro kv hm
        simp at hm)
      rfl
      (by
        intro i q hi
        simp at hi)
      (Or.inl ⟨rfl, rfl⟩)
    simp only [List.length_nil, List.nil_append, Nat.zero_add] at hspec
    obtain ⟨hdom, hlen, hget, htop⟩ := hspec
    have hmap : (_predict_proba dec X)[j]?
        = some (predictRowAux dec row 0 none []) := by
      unfold _predict_proba
      rw [List.getElem?_map, hj]
      rfl
    rcases htop with ⟨_, hrow⟩ | ⟨i, q, hiq, hteq, hbound⟩
    · exact absurd hrow (hne row hmem)
    · refine ⟨dec i, (predictRowAux dec row 0 none []).2, ?_, hlen, hget,
        ⟨i, q, hiq, rfl, hbound⟩⟩
      rw [hmap]
      exact congrArg some (Prod.ext hteq rfl)

/-- C3 witness: the theorem applied to a concrete one-row matrix with the
identity decoding. -/
theorem predict_proba_rows_witness :
    (_predict_proba (fun n : Nat => n) [[(1 : ℚ), 3, 2]]).length
      = [[(1 : ℚ), 3, 2]].length :=
  (predict_proba_rows (fun n : Nat => n) (fun a b h => h)
    [[(1 : ℚ), 3, 2]] (by decide) (by decide)).1

end MindMeld
